import Mathlib

/-!
Verification of the metadata-maintenance retention logic
(`plugins/task_generators/metadata_maintenance.py`) and the schema-type
mapping helper (`plugins/utils/miscellaneous.py`).

The embedding is shallow: SQLAlchemy queries become explicit filter chains
over Lean lists, timestamps become integers (epoch seconds), SQL NULL for
the owning `dag_id` becomes `Option String`, and the three-valued SQL
semantics of `NOT IN` over a subquery that may produce a NULL maximum is
modelled explicitly (`notinOpt`).
-/

/-- A row of the `dag_run` table, as used by the keep-last subquery
(`session.query(func.max(DagRun.execution_date))`) and by the configured
keep-last category.  `executionDate` is `DagRun.execution_date`,
`externalTrigger` is `DagRun.external_trigger`, `dagId` is `DagRun.dag_id`. -/
structure DagRunRow where
  executionDate : Int
  externalTrigger : Bool
  dagId : Option String
deriving DecidableEq

/-- A row of the `log` table (`Log.dttm`, `Log.dag_id`): a second table with
its own age-check column, used to exercise `build_query` on a category whose
age-check column is not `DagRun.execution_date`. -/
structure LogRow where
  dttm : Int
  dagId : Option String
deriving DecidableEq

/-- A generic category row for the run-level model of `cleanup_function`:
the value of the category's `age_check_column` and its `dag_id`. -/
structure Row where
  age : Int
  dagId : Option String
deriving DecidableEq

/-- A SQLAlchemy query over one table, reduced to what the cleanup code
uses: a conjunction of row predicates accumulated by `.filter(...)`. -/
structure Query (α : Type) where
  conds : List (α → Bool)

/-- Chained `query.filter(cond)`: appends one condition. -/
def Query.filter {α : Type} (q : Query α) (p : α → Bool) : Query α :=
  ⟨q.conds ++ [p]⟩

/-- A row satisfies the query iff it satisfies every accumulated condition. -/
def Query.matches {α : Type} (q : Query α) (r : α) : Bool :=
  q.conds.all (fun p => p r)

/-- Evaluation of `query.all()` / `query.delete()`: the rows of the table
satisfying the query. -/
def Query.run {α : Type} (q : Query α) (rows : List α) : List α :=
  rows.filter q.matches

/-- SQL `max` over a column: `none` on an empty set (SQL NULL), otherwise
the greatest value. -/
def maxOfList : List Int → Option Int
  | [] => none
  | x :: xs =>
    match maxOfList xs with
    | none => some x
    | some m => some (max x m)

/-- Application of the optional `keep_last_filters` list: each entry is a
further `.filter(entry)` on the subquery. -/
def applyKeepLastFilters {α : Type} (kf : Option (List (α → Bool)))
    (rows : List α) : List α :=
  match kf with
  | none => rows
  | some fs => rows.filter (fun r => fs.all (fun f => f r))

/-- Per-group SQL maxima of `col` where rows are grouped by `g`
(`GROUP BY` puts all NULL keys into one group): one value per distinct
group key, in first-appearance order. -/
def groupMaxes {α : Type} [DecidableEq α] (rows : List α) (col : α → Int)
    (g : α → Option String) : List (Option Int) :=
  ((rows.map g).dedup).map
    (fun k => maxOfList (((rows.filter (fun r => decide (g r = k))).map col)))

/-- The value set produced by the keep-last subquery of `build_query`:
`session.query(func.max(DagRun.execution_date))`, then `.filter(entry)` for
each `keep_last_filters` entry, then `.group_by(keep_last_group_by)` when
supplied (the final `.from_self()` does not change the produced values).
Note the maximised column is the `dag_run` table's `execution_date`,
whatever table and age-check column the query is being built for.
With no grouping the subquery always yields exactly one value — the SQL
maximum, which is NULL (`none`) over an empty filtered set. -/
def subqueryValues (dagRuns : List DagRunRow)
    (kf : Option (List (DagRunRow → Bool)))
    (kg : Option (DagRunRow → Option String)) : List (Option Int) :=
  match kg with
  | none =>
    [maxOfList ((applyKeepLastFilters kf dagRuns).map DagRunRow.executionDate)]
  | some g =>
    groupMaxes (applyKeepLastFilters kf dagRuns) DagRunRow.executionDate g

/-- SQL `x NOT IN (subquery)`: true iff every produced value is non-NULL
and different from `x`; a NULL among the values makes the comparison
UNKNOWN, so the row is not selected. -/
def notinOpt (x : Int) (vs : List (Option Int)) : Bool :=
  vs.all (fun v =>
    match v with
    | none => false
    | some w => decide (w ≠ x))

/-- Embeds `build_query(session, airflow_db_model, age_check_column, max_date,
keep_last, keep_last_filters, keep_last_group_by)`: starts from the bare
table query; without `keep_last` it filters by
`age_check_column <= max_date`; with `keep_last` it filters by
`age_check_column NOT IN (subquery)` and `age_check_column <= max_date`,
where the subquery is `subqueryValues` over the live `dag_run` table. -/
def build_query {α : Type} (dagRuns : List DagRunRow) (col : α → Int)
    (maxDate : Int) (keepLast : Bool)
    (kf : Option (List (DagRunRow → Bool)))
    (kg : Option (DagRunRow → Option String)) : Query α :=
  let query : Query α := ⟨[]⟩
  if keepLast then
    let sub := subqueryValues dagRuns kf kg
    (query.filter (fun r => notinOpt (col r) sub)).filter
      (fun r => decide (col r ≤ maxDate))
  else
    query.filter (fun r => decide (col r ≤ maxDate))

/-- The protected key set as the specification words it: the maximum value
of the given table's own age-check attribute, optionally restricted by the
exemption filters and grouped by the group-by attribute (one maximum per
group; no value at all over an empty set). -/
def protectedKeysSpec {α : Type} [DecidableEq α] (rows : List α)
    (col : α → Int) (exFilters : Option (List (α → Bool)))
    (groupBy : Option (α → Option String)) : List Int :=
  match groupBy with
  | none => (maxOfList ((applyKeepLastFilters exFilters rows).map col)).toList
  | some g =>
    (groupMaxes (applyKeepLastFilters exFilters rows) col g).filterMap id

/-- The eligibility predicate as the specification words it:
`ageColumn <= cutoff` without keep-last, and
`ageColumn NOT IN protectedKeys AND ageColumn <= cutoff` with keep-last,
where the protected keys come from the category's own rows and age-check
attribute. -/
def buildEligibilityPredicateSpec {α : Type} [DecidableEq α]
    (rows : List α) (col : α → Int) (cutoff : Int) (keepLast : Bool)
    (exFilters : Option (List (α → Bool)))
    (groupBy : Option (α → Option String)) : α → Bool :=
  fun r =>
    if keepLast then
      decide (¬ col r ∈ protectedKeysSpec rows col exFilters groupBy)
        && decide (col r ≤ cutoff)
    else
      decide (col r ≤ cutoff)

/-- Python `str(...)` applied to a `dag_id` value coming back from
`SELECT DISTINCT dag_id`: a string is unchanged, SQL NULL (Python `None`)
becomes the literal string `"None"`. -/
def pyStrOfDagId : Option String → String
  | some s => s
  | none => "None"

/-- The partition list of `cleanup_function`:
`list_dags = [str(list(dag)[0]) for dag in dags] + [None]`, where `dags`
is `SELECT DISTINCT dag_id` over the category's rows (distinct values in
first-appearance order, NULL included as one value).  `some s` is a Python
string partition key, `none` the final Python `None`. -/
def enumeratePartitions {α : Type} (rows : List α)
    (dagIdOf : α → Option String) : List (Option String) :=
  (((rows.map dagIdOf).dedup).map (fun v => some (pyStrOfDagId v))) ++ [none]

/-- The partition restriction `airflow_db_model.dag_id == dag`: for a
Python string it is SQL equality (a NULL `dag_id` never equals a string);
for Python `None`, SQLAlchemy emits `dag_id IS NULL`. -/
def dagIdEq (rowDagId : Option String) : Option String → Bool
  | some s => decide (rowDagId = some s)
  | none => rowDagId.isNone

/-- One iteration of the partition loop of `cleanup_function`: rebuild the
query, add the partition restriction, and, when `ENABLE_DELETE`, delete the
matched rows (committed for this partition). -/
def processPartition {α : Type} (dagRuns : List DagRunRow) (col : α → Int)
    (maxDate : Int) (keepLast : Bool) (kf : Option (List (DagRunRow → Bool)))
    (kg : Option (DagRunRow → Option String)) (dagIdOf : α → Option String)
    (enableDelete : Bool) (table : List α) (p : Option String) : List α :=
  let q := (build_query dagRuns col maxDate keepLast kf kg).filter
    (fun r => dagIdEq (dagIdOf r) p)
  if enableDelete then table.filter (fun r => !(q.matches r)) else table

/-- The `for dag in list_dags` loop: partitions are processed in order and
committed one by one; the whole loop runs inside one `try`, so an error
raised while processing a partition rolls back only that partition's
uncommitted work and aborts the rest of the loop.  `fails p = true` means
the storage raises while processing partition `p`.  Returns the table
after the committed deletions and whether the loop completed. -/
def partitionLoop {α : Type} (fails : Option String → Bool)
    (step : List α → Option String → List α) :
    List (Option String) → List α → List α × Bool
  | [], table => (table, true)
  | p :: ps, table =>
    if fails p then (table, false)
    else partitionLoop fails step ps (step table p)

/-- Outcome of running `cleanup_function` for one category: completed,
aborted by a storage failure, or skipped because the category's table is
absent (`ProgrammingError` caught, logged and swallowed). -/
inductive Outcome where
  | ok
  | failed
  | skippedMissing
deriving DecidableEq

/-- The metadata store for the run-level model: each category name mapped
to its table's rows; a category absent from the store models a table that
does not exist in this deployment. -/
abbrev Store := List (String × List Row)

/-- First-match lookup of a category's table. -/
def lookupTable : Store → String → Option (List Row)
  | [], _ => none
  | (n, t) :: rest, name => if n = name then some t else lookupTable rest name

/-- Replace the first binding of a category's table (no-op when absent). -/
def updateTable : Store → String → List Row → Store
  | [], _, _ => []
  | (n, t) :: rest, name, t' =>
    if n = name then (name, t') :: rest else (n, t) :: updateTable rest name t'

/-- Static per-category configuration: one `DATABASE_OBJECTS` entry. -/
structure CatConfig where
  name : String
  keepLast : Bool
  kf : Option (List (DagRunRow → Bool))
  kg : Option (DagRunRow → Option String)
  doNotDeleteByDagId : Bool

/-- Embeds `cleanup_function` for one category: if the table is missing the
`ProgrammingError` is caught, logged and the category skipped; otherwise
either the single global delete (`do_not_delete_by_dag_id`) or the
per-partition loop over `enumeratePartitions` runs, and the surviving
table is written back.  The keep-last subquery reads the `dag_run` table,
passed here as the run-level `dagRuns` parameter. -/
def cleanupCategory (dagRuns : List DagRunRow) (maxDate : Int)
    (enableDelete : Bool) (fails : Option String → Bool) (store : Store)
    (cfg : CatConfig) : Store × Outcome :=
  match lookupTable store cfg.name with
  | none => (store, Outcome.skippedMissing)
  | some table =>
    if cfg.doNotDeleteByDagId then
      let q := build_query dagRuns Row.age maxDate cfg.keepLast cfg.kf cfg.kg
      let t' := if enableDelete then table.filter (fun r => !(q.matches r))
                else table
      (updateTable store cfg.name t', Outcome.ok)
    else
      let parts := enumeratePartitions table Row.dagId
      let res := partitionLoop fails
        (processPartition dagRuns Row.age maxDate cfg.keepLast cfg.kf cfg.kg
          Row.dagId enableDelete) parts table
      (updateTable store cfg.name res.1,
        if res.2 then Outcome.ok else Outcome.failed)

/-- The run: every configured category is cleaned in turn (each one is its
own task; a failed or skipped category never stops the others), collecting
each category's outcome. -/
def runCleanup (dagRuns : List DagRunRow) (maxDate : Int)
    (enableDelete : Bool) (fails : Option String → Bool) (store : Store) :
    List CatConfig → Store × List Outcome
  | [] => (store, [])
  | cfg :: rest =>
    let res := cleanupCategory dagRuns maxDate enableDelete fails store cfg
    let res' := runCleanup dagRuns maxDate enableDelete fails res.1 rest
    (res'.1, res.2 :: res'.2)

/-- Embeds `print_configuration_function`'s age resolution: when
`maxDBEntryAgeInDays` is absent from `dag_run.conf` (or the conf itself is
absent) or is below 1, the default `DEFAULT_MAX_DB_ENTRY_AGE_IN_DAYS` is
used; otherwise the requested value is. -/
def resolveMaxAge (requested : Option Int) (dflt : Int) : Int :=
  match requested with
  | none => dflt
  | some d => if d < 1 then dflt else d

/-- Seconds in one day, the unit of `timedelta(days)`. -/
def secondsPerDay : Int := 86400

/-- Embeds `max_date = now() + timedelta(-max_db_entry_age_in_days)`: the cutoff
timestamp pushed to XCom, with `now` injected explicitly. -/
def resolveCutoff (now : Int) (requested : Option Int) (dflt : Int) : Int :=
  now + (-(resolveMaxAge requested dflt)) * secondsPerDay

/-- Does the character list `needle` occur at the start of `hay`? -/
def charsStartWith : List Char → List Char → Bool
  | [], _ => true
  | _ :: _, [] => false
  | a :: as, b :: bs => a == b && charsStartWith as bs

/-- Does the character list `needle` occur contiguously anywhere in `hay`
(Python's `needle in hay` on strings)? -/
def charsInclude (needle : List Char) : List Char → Bool
  | [] => needle.isEmpty
  | c :: cs => charsStartWith needle (c :: cs) || charsInclude needle cs

/-- Python `key in schema_type` for strings. -/
def strIncludes (needle hay : String) : Bool :=
  charsInclude needle.toList hay.toList

/-- The fixed ordered parsing table of `get_parsed_schema_type`
(insertion order of the Python dict). -/
def typeTable : List (String × String) :=
  [("datetime", "TIMESTAMP"),
   ("timestamp", "TIMESTAMP"),
   ("bool", "BOOLEAN"),
   ("int", "INTEGER"),
   ("float", "FLOAT"),
   ("numeric", "FLOAT"),
   ("double", "FLOAT"),
   ("decimal", "FLOAT"),
   ("time", "TIME"),
   ("date", "DATE")]

/-- Embeds `get_parsed_schema_type`: return the tag of the first table key that is
a substring of the input, else `"STRING"`. -/
def get_parsed_schema_type (schema_type : String) : String :=
  match typeTable.find? (fun kv => strIncludes kv.1 schema_type) with
  | some kv => kv.2
  | none => "STRING"

/-- A one-row `dag_run` table (execution date 10). -/
def dagRunsOne : List DagRunRow := [⟨10, false, none⟩]

/-- A one-row `log` table whose single row is dated 5. -/
def logRowsOne : List LogRow := [⟨5, none⟩]

/-- A `dag_run` table with two rows tied at the maximum execution date. -/
def dagRunsTie : List DagRunRow :=
  [⟨10, false, some "a"⟩, ⟨10, false, some "b"⟩]

/-- A category table with owner values x and y plus one unowned row. -/
def rowsXYNull : List Row := [⟨1, some "x"⟩, ⟨2, some "y"⟩, ⟨3, none⟩]

/-- A category table with one aged row in each of the partitions x and y. -/
def tableXY : List Row := [⟨0, some "x"⟩, ⟨0, some "y"⟩]

/-- A storage fault oracle: the store raises while partition x is being
processed. -/
def failsOnX : Option String → Bool := fun p => decide (p = some "x")

/-- A present category over the job table. -/
def cfgJob : CatConfig := ⟨"job", false, none, none, false⟩

/-- A configured category whose table does not exist in the deployment. -/
def cfgAbsent : CatConfig := ⟨"task_fail", false, none, none, false⟩

/-- A present category over the log table. -/
def cfgLog : CatConfig := ⟨"log", false, none, none, false⟩

/-- A store holding the job and log tables and nothing else. -/
def storeTwo : Store := [("job", [⟨0, none⟩]), ("log", [⟨0, some "x"⟩])]

theorem maxOfList_eq_none {l : List Int} : maxOfList l = none ↔ l = [] := by
  cases l with
  | nil => simp [maxOfList]
  | cons x xs =>
    simp only [maxOfList]
    cases maxOfList xs <;> simp

theorem maxOfList_mem {l : List Int} {m : Int} (h : maxOfList l = some m) :
    m ∈ l := by
  induction l generalizing m with
  | nil => simp [maxOfList] at h
  | cons x xs ih =>
    rw [maxOfList] at h
    cases hx : maxOfList xs with
    | none => rw [hx] at h; simp at h; simp [h]
    | some m' =>
      rw [hx] at h
      simp only [Option.some.injEq] at h
      subst h
      rcases max_choice x m' with h1 | h1 <;> rw [h1]
      · exact List.mem_cons_self x xs
      · exact List.mem_cons_of_mem x (ih hx)

theorem le_maxOfList {l : List Int} {x m : Int} (hx : x ∈ l)
    (h : maxOfList l = some m) : x ≤ m := by
  induction l generalizing m with
  | nil => simp at hx
  | cons y ys ih =>
    rw [maxOfList] at h
    rcases List.mem_cons.mp hx with rfl | hx'
    · cases hy : maxOfList ys with
      | none => rw [hy] at h; simp at h; omega
      | some m' =>
        rw [hy] at h
        simp only [Option.some.injEq] at h
        subst h
        exact le_max_left x m'
    · cases hy : maxOfList ys with
      | none =>
        rw [maxOfList_eq_none] at hy
        subst hy
        simp at hx'
      | some m' =>
        rw [hy] at h
        simp only [Option.some.injEq] at h
        subst h
        exact le_trans (ih hx' hy) (le_max_right y m')

theorem maxOfList_isSome_of_mem {l : List Int} {x : Int} (hx : x ∈ l) :
    ∃ m, maxOfList l = some m := by
  cases hm : maxOfList l with
  | none =>
    rw [maxOfList_eq_none] at hm
    subst hm
    simp at hx
  | some m => exact ⟨m, rfl⟩

theorem maxOfList_sublist_eq {l l' : List Int} {M : Int}
    (hsub : ∀ x ∈ l', x ∈ l) (hMem : M ∈ l') (hM : maxOfList l = some M) :
    maxOfList l' = some M := by
  obtain ⟨m', hm'⟩ := maxOfList_isSome_of_mem hMem
  have h1 : m' ≤ M := le_maxOfList (hsub m' (maxOfList_mem hm')) hM
  have h2 : M ≤ m' := le_maxOfList hMem hm'
  rw [hm']
  congr 1
  omega

theorem build_query_false_matches {α : Type} (dagRuns : List DagRunRow)
    (col : α → Int) (maxDate : Int) (kf : Option (List (DagRunRow → Bool)))
    (kg : Option (DagRunRow → Option String)) (r : α) :
    (build_query dagRuns col maxDate false kf kg).matches r
      = decide (col r ≤ maxDate) := by
  simp [build_query, Query.filter, Query.matches]

theorem build_query_true_matches {α : Type} (dagRuns : List DagRunRow)
    (col : α → Int) (maxDate : Int) (kf : Option (List (DagRunRow → Bool)))
    (kg : Option (DagRunRow → Option String)) (r : α) :
    (build_query dagRuns col maxDate true kf kg).matches r
      = (notinOpt (col r) (subqueryValues dagRuns kf kg)
          && decide (col r ≤ maxDate)) := by
  simp [build_query, Query.filter, Query.matches]

theorem notinOpt_eq_false_iff {x : Int} {vs : List (Option Int)} :
    notinOpt x vs = false ↔ ∃ v ∈ vs, v = none ∨ v = some x := by
  simp only [notinOpt, List.all_eq_false]
  constructor
  · rintro ⟨v, hv, hp⟩
    refine ⟨v, hv, ?_⟩
    cases v with
    | none => exact Or.inl rfl
    | some w =>
      right
      simp only [decide_eq_true_eq] at hp
      simp at hp
      simp [hp]
  · rintro ⟨v, hv, hcase⟩
    refine ⟨v, hv, ?_⟩
    rcases hcase with rfl | rfl <;> simp

theorem notinOpt_map_some (x : Int) (l : List Int) :
    notinOpt x (l.map some) = decide (¬ x ∈ l) := by
  induction l with
  | nil => simp [notinOpt]
  | cons a l ih =>
    simp only [List.map_cons, notinOpt, List.all_cons] at ih ⊢
    rw [ih]
    by_cases h1 : x = a <;> by_cases h2 : x ∈ l <;>
      simp [h1, h2, ne_comm]

theorem filter_not_self {α : Type} (p : α → Bool) (l : List α) :
    (l.filter (fun r => !(p r))).filter p = [] := by
  rw [List.filter_eq_nil_iff]
  intro a ha
  have h := (List.mem_filter.mp ha).2
  simp only [Bool.not_eq_true'] at h
  simp [h]

theorem applyKeepLastFilters_eq_filter {α : Type}
    (kf : Option (List (α → Bool))) (rows : List α) :
    applyKeepLastFilters kf rows = rows.filter (fun r =>
      match kf with
      | none => true
      | some fs => fs.all (fun f => f r)) := by
  cases kf <;> simp [applyKeepLastFilters]

theorem filterMap_id_map_some {l : List (Option Int)}
    (h : ∀ v ∈ l, v ≠ none) : (l.filterMap id).map some = l := by
  induction l with
  | nil => simp
  | cons v l ih =>
    cases v with
    | none => exact absurd rfl (h none (List.mem_cons_self none l))
    | some b =>
      simp only [List.filterMap_cons, id]
      rw [List.map_cons, ih (fun v hv => h v (List.mem_cons_of_mem _ hv))]

theorem groupMaxes_ne_none {α : Type} [DecidableEq α] (rows : List α)
    (col : α → Int) (g : α → Option String) :
    ∀ v ∈ groupMaxes rows col g, v ≠ none := by
  intro v hv
  simp only [groupMaxes, List.mem_map] at hv
  obtain ⟨k, hk, hkv⟩ := hv
  rw [List.mem_dedup] at hk
  obtain ⟨r, hr, hrk⟩ := List.mem_map.mp hk
  subst hkv
  intro hnone
  rw [maxOfList_eq_none, List.map_eq_nil_iff, List.filter_eq_nil_iff] at hnone
  exact hnone r hr (by simp [hrk])

theorem subqueryValues_eq_spec (dagRuns : List DagRunRow)
    (kf : Option (List (DagRunRow → Bool)))
    (kg : Option (DagRunRow → Option String))
    (hside : kg ≠ none ∨ applyKeepLastFilters kf dagRuns ≠ []) :
    subqueryValues dagRuns kf kg =
      (protectedKeysSpec dagRuns DagRunRow.executionDate kf kg).map some := by
  cases kg with
  | none =>
    rcases hside with h | h
    · exact absurd rfl h
    · simp only [subqueryValues, protectedKeysSpec]
      cases hm : maxOfList
          ((applyKeepLastFilters kf dagRuns).map DagRunRow.executionDate) with
      | none =>
        rw [maxOfList_eq_none, List.map_eq_nil_iff] at hm
        exact absurd hm h
      | some m => simp [hm, Option.toList]
  | some g =>
    simp only [subqueryValues, protectedKeysSpec]
    exact (filterMap_id_map_some (groupMaxes_ne_none _ _ _)).symm

/-- Claim C1 (amended): `build_query` returns the predicate
`ageColumn <= cutoffTimestamp` when the category's keepLast flag is false;
when keepLast is true it returns
`ageColumn NOT IN protectedKeys AND ageColumn <= cutoffTimestamp`, where
protectedKeys is the maximum of the DagRun table's execution-date
attribute — not of the category's own age-check attribute — restricted by
the category's exemptionFilters and grouped by its groupBy attribute
(provided the protected-key subquery produces at least one value set:
grouping is present or some DagRun row passes the filters). -/
theorem C1_amended_predicate_shape {α : Type} (dagRuns : List DagRunRow)
    (col : α → Int) (maxDate : Int) (kf : Option (List (DagRunRow → Bool)))
    (kg : Option (DagRunRow → Option String)) (r : α) :
    ((build_query dagRuns col maxDate false kf kg).matches r
        = decide (col r ≤ maxDate))
    ∧ ((kg ≠ none ∨ applyKeepLastFilters kf dagRuns ≠ []) →
        (build_query dagRuns col maxDate true kf kg).matches r
          = (decide (¬ col r ∈
                protectedKeysSpec dagRuns DagRunRow.executionDate kf kg)
              && decide (col r ≤ maxDate))) := by
  constructor
  · exact build_query_false_matches dagRuns col maxDate kf kg r
  · intro hside
    rw [build_query_true_matches, subqueryValues_eq_spec dagRuns kf kg hside,
      notinOpt_map_some]

/-- Claim C1, counterexample: for a keep-last category over the log table
(age-check attribute `Log.dttm`), with the log table holding one row dated
5, the DagRun table one row dated 10, and cutoff 100, the code's predicate
matches the log row (its date is not the DagRun maximum 10), while the
predicate the claim describes — protected keys drawn from the category's
own age-check attribute — protects it (5 is the category's own maximum). -/
theorem C1_counterexample :
    (build_query dagRunsOne LogRow.dttm 100 true none none).matches ⟨5, none⟩
        = true
    ∧ buildEligibilityPredicateSpec logRowsOne LogRow.dttm 100 true none none
        ⟨5, none⟩ = false := by decide

theorem C1_amended_predicate_shape_witness :
    ((build_query dagRunsOne LogRow.dttm 100 false none none).matches
        ⟨5, none⟩ = decide (LogRow.dttm ⟨5, none⟩ ≤ 100))
    ∧ ((build_query dagRunsOne LogRow.dttm 100 true none none).matches
        ⟨5, none⟩
        = (decide (¬ LogRow.dttm ⟨5, none⟩ ∈
              protectedKeysSpec dagRunsOne DagRunRow.executionDate none none)
            && decide (LogRow.dttm ⟨5, none⟩ ≤ 100))) :=
  ⟨(C1_amended_predicate_shape dagRunsOne LogRow.dttm 100 none none
      ⟨5, none⟩).1,
   (C1_amended_predicate_shape dagRunsOne LogRow.dttm 100 none none
      ⟨5, none⟩).2 (Or.inr (by decide))⟩

/-- Claim C2 (amended): for the configured keep-last category — the DagRun
table with age-check attribute `execution_date` — the keep-last protection
is VALUE-based, not row-based.  With a groupBy attribute (the configured
category groups by `dag_id`): every filtered row attaining its own group's
maximum execution date is preserved from deletion however old the cutoff,
so ALL rows tied at a group maximum are exempt, not exactly one row per
group.  With no groupBy the subquery produces exactly one value: the
maximum execution date over the rows passing the exemption filters (an
upper bound attained by some filtered row whenever any filtered row
exists); every row attaining that value is preserved however old the
cutoff, so at most one VALUE — not at most one row — is ever exempt, and
a row is eligible iff its execution date differs from that maximum and is
at most the cutoff. -/
theorem C2_amended_keep_last_protection :
    (∀ (rows : List DagRunRow) (kf : Option (List (DagRunRow → Bool)))
        (g : DagRunRow → Option String) (maxDate : Int) (w : DagRunRow),
      w ∈ applyKeepLastFilters kf rows →
      maxOfList (((applyKeepLastFilters kf rows).filter
          (fun r => decide (g r = g w))).map DagRunRow.executionDate)
        = some w.executionDate →
      (build_query rows DagRunRow.executionDate maxDate true kf
          (some g)).matches w = false)
    ∧ (∀ (rows : List DagRunRow) (kf : Option (List (DagRunRow → Bool)))
        (maxDate : Int),
      ∃ v : Option Int,
        subqueryValues rows kf none = [v]
        ∧ (∀ w ∈ applyKeepLastFilters kf rows,
            ∃ m : Int, v = some m ∧ w.executionDate ≤ m
              ∧ ∃ u ∈ applyKeepLastFilters kf rows, u.executionDate = m)
        ∧ (∀ r : DagRunRow,
            (build_query rows DagRunRow.executionDate maxDate true kf
                none).matches r = true
              ↔ (v ≠ none ∧ (∀ m : Int, v = some m → r.executionDate ≠ m)
                  ∧ r.executionDate ≤ maxDate))) := by
  constructor
  · intro rows kf g maxDate w hw hmax
    have hkmem : g w ∈ ((applyKeepLastFilters kf rows).map g).dedup :=
      List.mem_dedup.mpr (List.mem_map.mpr ⟨w, hw, rfl⟩)
    have hsub : some w.executionDate
        ∈ subqueryValues rows kf (some g) := by
      rw [subqueryValues, groupMaxes]
      exact List.mem_map.mpr ⟨g w, hkmem, hmax⟩
    have hnotin : notinOpt w.executionDate
        (subqueryValues rows kf (some g)) = false :=
      notinOpt_eq_false_iff.mpr ⟨some w.executionDate, hsub, Or.inr rfl⟩
    rw [build_query_true_matches, hnotin, Bool.false_and]
  · intro rows kf maxDate
    refine ⟨maxOfList ((applyKeepLastFilters kf rows).map
      DagRunRow.executionDate), rfl, ?_, ?_⟩
    · intro w hw
      have hmem : w.executionDate ∈
          (applyKeepLastFilters kf rows).map DagRunRow.executionDate :=
        List.mem_map.mpr ⟨w, hw, rfl⟩
      obtain ⟨m, hm⟩ := maxOfList_isSome_of_mem hmem
      obtain ⟨u, hu, hue⟩ := List.mem_map.mp (maxOfList_mem hm)
      exact ⟨m, hm, le_maxOfList hmem hm, u, hu, hue⟩
    · intro r
      rw [build_query_true_matches]
      show (notinOpt r.executionDate [_] && _) = true ↔ _
      cases hm : maxOfList ((applyKeepLastFilters kf rows).map
          DagRunRow.executionDate) with
      | none => simp [notinOpt]
      | some m =>
        simp only [notinOpt, List.all_cons, List.all_nil, Bool.and_true,
          Bool.and_eq_true, decide_eq_true_eq, ne_eq, Option.some.injEq,
          reduceCtorEq, not_false_eq_true, true_and]
        constructor
        · rintro ⟨h1, h2⟩
          exact ⟨fun m' hm' => by rw [← hm']; omega, h2⟩
        · rintro ⟨h1, h2⟩
          exact ⟨fun hc => h1 m rfl (by omega), h2⟩

/-- Claim C2, counterexample: a DagRun table with two distinct rows tied
at the maximum execution date 10, both below the cutoff 100 — the
eligibility query matches neither row, so TWO rows of the category are
exempt from deletion even though no groupBy is configured, refuting
"exactly the newest row is preserved / at most one row is ever exempt". -/
theorem C2_counterexample :
    (build_query dagRunsTie DagRunRow.executionDate 100 true none
        none).run dagRunsTie = []
    ∧ dagRunsTie.length = 2
    ∧ dagRunsTie.all (fun r => decide (r.executionDate ≤ 100)) = true := by
  decide

theorem C2_amended_keep_last_protection_witness :
    (build_query dagRunsTie DagRunRow.executionDate 100 true none
        (some DagRunRow.dagId)).matches ⟨10, false, some "a"⟩ = false
    ∧ ∃ v : Option Int,
        subqueryValues dagRunsTie none none = [v]
        ∧ (∀ w ∈ applyKeepLastFilters none dagRunsTie,
            ∃ m : Int, v = some m ∧ w.executionDate ≤ m
              ∧ ∃ u ∈ applyKeepLastFilters none dagRunsTie,
                  u.executionDate = m)
        ∧ (∀ r : DagRunRow,
            (build_query dagRunsTie DagRunRow.executionDate 100 true none
                none).matches r = true
              ↔ (v ≠ none ∧ (∀ m : Int, v = some m → r.executionDate ≠ m)
                  ∧ r.executionDate ≤ 100)) :=
  ⟨C2_amended_keep_last_protection.1 dagRunsTie none DagRunRow.dagId 100
      ⟨10, false, some "a"⟩ (by decide) (by decide),
   C2_amended_keep_last_protection.2 dagRunsTie none 100⟩

theorem countP_eq_one_of_nodup {β : Type} {l : List β} (hl : l.Nodup)
    {a : β} (ha : a ∈ l) (p : β → Bool) (hp : ∀ b, p b = true ↔ b = a) :
    l.countP p = 1 := by
  induction l with
  | nil => simp at ha
  | cons x xs ih =>
    rw [List.countP_cons]
    rcases List.mem_cons.mp ha with rfl | hx
    · rw [(hp a).mpr rfl]
      have h0 : xs.countP p = 0 := by
        rw [List.countP_eq_zero]
        intro b hb hpb
        rw [(hp b).mp hpb] at hb
        exact (List.nodup_cons.mp hl).1 hb
      rw [h0]
      simp
    · have hpx : p x = false := by
        cases hpx : p x
        · rfl
        · exfalso
          have hxa := (hp x).mp hpx
          subst hxa
          exact (List.nodup_cons.mp hl).1 hx
      rw [hpx]
      simp [ih (List.nodup_cons.mp hl).2 hx]

/-- Claim C3 (amended): partition enumeration yields one partition per
distinct owning-dag-id value present among the category's rows — where a
NULL owner contributes a partition keyed by the literal string "None"
(Python's `str(None)`) — plus the unowned (`IS NULL`) partition appended
at the end.  Provided no owner value is literally the string "None":
every row of the category belongs to exactly one enumerated partition,
the string partitions are exactly the owner strings present together with
"None" when unowned rows exist, and the spurious "None" partition matches
no row.  (The claimed count of distinct-owners + 1 partitions fails when
unowned rows exist: they add a "None" partition as well.) -/
theorem C3_amended_partition_enumeration {α : Type} (rows : List α)
    (dagIdOf : α → Option String)
    (hnone : ∀ r ∈ rows, dagIdOf r ≠ some "None") :
    (enumeratePartitions rows dagIdOf).length
        = ((rows.map dagIdOf).dedup).length + 1
    ∧ (∀ r ∈ rows,
        (enumeratePartitions rows dagIdOf).countP
          (fun p => dagIdEq (dagIdOf r) p) = 1)
    ∧ (∀ s : String,
        some s ∈ enumeratePartitions rows dagIdOf
          ↔ ((s ≠ "None" ∧ some s ∈ rows.map dagIdOf)
              ∨ (s = "None" ∧ none ∈ rows.map dagIdOf)))
    ∧ none ∈ enumeratePartitions rows dagIdOf
    ∧ (∀ r ∈ rows, dagIdEq (dagIdOf r) (some "None") = false) := by
  refine ⟨by simp [enumeratePartitions], ?_, ?_, ?_, ?_⟩
  · intro r hr
    rw [enumeratePartitions, List.countP_append, List.countP_map]
    cases hd : dagIdOf r with
    | none =>
      have h0 : ((rows.map dagIdOf).dedup).countP
          ((fun p => dagIdEq (none : Option String) p) ∘
            (fun v => some (pyStrOfDagId v))) = 0 := by
        rw [List.countP_eq_zero]
        intro v _
        simp [dagIdEq]
      rw [h0]
      simp [dagIdEq]
    | some s =>
      have hs : s ≠ "None" := by
        intro h
        exact hnone r hr (by rw [hd, h])
      have h1 : ((rows.map dagIdOf).dedup).countP
          ((fun p => dagIdEq (some s) p) ∘
            (fun v => some (pyStrOfDagId v))) = 1 := by
        refine countP_eq_one_of_nodup (List.nodup_dedup _)
          (List.mem_dedup.mpr (List.mem_map.mpr ⟨r, hr, hd⟩)) _ ?_
        intro v
        simp only [Function.comp, dagIdEq, decide_eq_true_eq,
          Option.some.injEq]
        constructor
        · intro he
          cases v with
          | none => exact absurd he (by simpa [pyStrOfDagId] using hs)
          | some t => simp only [pyStrOfDagId] at he; rw [he]
        · intro he
          subst he
          rfl
      rw [h1]
      simp [dagIdEq]
  · intro s
    rw [enumeratePartitions, List.mem_append]
    have hsing : (some s : Option String) ∈ [(none : Option String)] ↔
        False := by simp
    rw [hsing, or_false, List.mem_map]
    constructor
    · rintro ⟨v, hv, he⟩
      rw [List.mem_dedup] at hv
      simp only [Option.some.injEq] at he
      cases v with
      | none =>
        right
        simp only [pyStrOfDagId] at he
        exact ⟨he.symm, hv⟩
      | some t =>
        left
        obtain ⟨u, hu, hut⟩ := List.mem_map.mp hv
        have ht : t ≠ "None" := by
          intro h
          exact hnone u hu (by rw [hut, h])
        simp only [pyStrOfDagId] at he
        subst he
        exact ⟨ht, hv⟩
    · rintro (⟨hs, hmem⟩ | ⟨rfl, hmem⟩)
      · exact ⟨some s, List.mem_dedup.mpr hmem, rfl⟩
      · exact ⟨none, List.mem_dedup.mpr hmem, rfl⟩
  · rw [enumeratePartitions, List.mem_append]
    right
    simp
  · intro r hr
    simp [dagIdEq, hnone r hr]

/-- Claim C3, counterexample: a category with owner values x and y plus
one unowned row yields FOUR partitions — x, y, a partition keyed by the
string "None" produced by `str` of the NULL distinct value, and the
unowned partition — not the claimed exactly three. -/
theorem C3_counterexample :
    enumeratePartitions rowsXYNull Row.dagId
        = [some "x", some "y", some "None", none]
    ∧ (enumeratePartitions rowsXYNull Row.dagId).length ≠ 3 := by decide

theorem C3_amended_partition_enumeration_witness :
    (enumeratePartitions rowsXYNull Row.dagId).length
        = ((rowsXYNull.map Row.dagId).dedup).length + 1
    ∧ (∀ r ∈ rowsXYNull,
        (enumeratePartitions rowsXYNull Row.dagId).countP
          (fun p => dagIdEq (Row.dagId r) p) = 1)
    ∧ (∀ s : String,
        some s ∈ enumeratePartitions rowsXYNull Row.dagId
          ↔ ((s ≠ "None" ∧ some s ∈ rowsXYNull.map Row.dagId)
              ∨ (s = "None" ∧ none ∈ rowsXYNull.map Row.dagId)))
    ∧ none ∈ enumeratePartitions rowsXYNull Row.dagId
    ∧ (∀ r ∈ rowsXYNull, dagIdEq (Row.dagId r) (some "None") = false) :=
  C3_amended_partition_enumeration rowsXYNull Row.dagId (by decide)

theorem partitionLoop_fail_at {α : Type} (fails : Option String → Bool)
    (step : List α → Option String → List α) (ps₁ ps₂ : List (Option String))
    (p : Option String) (table : List α)
    (h1 : ∀ q ∈ ps₁, fails q = false) (h2 : fails p = true) :
    partitionLoop fails step (ps₁ ++ p :: ps₂) table
      = (ps₁.foldl step table, false) := by
  induction ps₁ generalizing table with
  | nil => simp [partitionLoop, h2]
  | cons q qs ih =>
    have hq : fails q = false := h1 q (List.mem_cons_self q qs)
    simp only [List.cons_append, partitionLoop, hq, Bool.false_eq_true,
      if_false, List.foldl_cons]
    exact ih (step table q) (fun q' hq' => h1 q' (List.mem_cons_of_mem q hq'))

/-- Claim C4 (amended): within a partition-scoped category each
partition's deletion is committed independently, so when the store raises
while processing a partition, the deletions already committed for the
earlier partitions stand (they are exactly the fold of the per-partition
delete over the earlier partitions) and the failing partition's own
uncommitted deletion is rolled back — but, contrary to the claim, the
remaining partitions of that category are NOT processed: the whole
partition loop of the category runs inside one try, so the first failure
aborts the rest of the loop and the category's task fails. -/
theorem C4_amended_commit_per_partition {α : Type}
    (dagRuns : List DagRunRow) (col : α → Int) (maxDate : Int)
    (keepLast : Bool) (kf : Option (List (DagRunRow → Bool)))
    (kg : Option (DagRunRow → Option String)) (dagIdOf : α → Option String)
    (enableDelete : Bool) (fails : Option String → Bool)
    (ps₁ ps₂ : List (Option String)) (p : Option String) (table : List α)
    (h1 : ∀ q ∈ ps₁, fails q = false) (h2 : fails p = true) :
    partitionLoop fails
        (processPartition dagRuns col maxDate keepLast kf kg dagIdOf
          enableDelete) (ps₁ ++ p :: ps₂) table
      = (ps₁.foldl (processPartition dagRuns col maxDate keepLast kf kg
          dagIdOf enableDelete) table, false) :=
  partitionLoop_fail_at fails _ ps₁ ps₂ p table h1 h2

/-- Claim C4, counterexample: a category holding one cutoff-eligible row
in partition x and one in partition y, with the store raising on
partition x (the first partition processed): the loop returns the table
unchanged and the category fails, so partition y — whose eligible row the
claim says would still be processed and deleted — is never processed. -/
theorem C4_counterexample :
    partitionLoop failsOnX
        (processPartition [] Row.age 10 false none none Row.dagId true)
        (enumeratePartitions tableXY Row.dagId) tableXY = (tableXY, false)
    ∧ (⟨0, some "y"⟩ : Row) ∈ tableXY
    ∧ (build_query ([] : List DagRunRow) Row.age 10 false none
        none).matches ⟨0, some "y"⟩ = true := by decide

theorem C4_amended_commit_per_partition_witness :
    partitionLoop failsOnX
        (processPartition [] Row.age 10 false none none Row.dagId true)
        ([] ++ some "x" :: [some "y", none]) tableXY
      = (([] : List (Option String)).foldl
          (processPartition [] Row.age 10 false none none Row.dagId true)
          tableXY, false) :=
  C4_amended_commit_per_partition [] Row.age 10 false none none Row.dagId
    true failsOnX [] [some "y", none] (some "x") tableXY
    (by decide) (by decide)

/-- Claim C5: the configuration step uses the configured default age when
the requested age-in-days is absent or below 1 and the requested value
otherwise, and the cutoff pushed downstream is the current time minus
that many days. -/
theorem C5_cutoff_fallback (now dflt : Int) :
    resolveCutoff now none dflt = now - dflt * secondsPerDay
    ∧ (∀ d : Int, d < 1 →
        resolveCutoff now (some d) dflt = now - dflt * secondsPerDay)
    ∧ (∀ d : Int, 1 ≤ d →
        resolveCutoff now (some d) dflt = now - d * secondsPerDay) := by
  refine ⟨?_, ?_, ?_⟩
  · simp [resolveCutoff, resolveMaxAge]
    ring
  · intro d hd
    simp [resolveCutoff, resolveMaxAge, if_pos hd]
    ring
  · intro d hd
    have hnd : ¬ d < 1 := by omega
    simp [resolveCutoff, resolveMaxAge, if_neg hnd]
    ring

theorem C5_cutoff_fallback_witness :
    resolveCutoff 1700000000 none 30 = 1700000000 - 30 * secondsPerDay
    ∧ resolveCutoff 1700000000 (some 0) 30
        = 1700000000 - 30 * secondsPerDay
    ∧ resolveCutoff 1700000000 (some (-5)) 30
        = 1700000000 - 30 * secondsPerDay
    ∧ resolveCutoff 1700000000 (some 45) 30
        = 1700000000 - 45 * secondsPerDay :=
  ⟨(C5_cutoff_fallback 1700000000 30).1,
   (C5_cutoff_fallback 1700000000 30).2.1 0 (by decide),
   (C5_cutoff_fallback 1700000000 30).2.1 (-5) (by decide),
   (C5_cutoff_fallback 1700000000 30).2.2 45 (by decide)⟩

theorem lookupTable_updateTable (store : Store) (k : String) (t : List Row)
    (n : String) :
    lookupTable (updateTable store k t) n =
      if n = k then
        (match lookupTable store k with
         | some _ => some t
         | none => none)
      else lookupTable store n := by
  induction store with
  | nil =>
    simp only [updateTable, lookupTable]
    by_cases h : n = k <;> simp [h]
  | cons hd rest ih =>
    obtain ⟨m, u⟩ := hd
    simp only [updateTable, lookupTable]
    by_cases hmk : m = k
    · subst hmk
      simp only [if_pos rfl, lookupTable]
      by_cases hnm : n = m
      · subst hnm
        simp [lookupTable]
      · have hmn : ¬ m = n := fun h => hnm h.symm
        simp [lookupTable, hnm, hmn]
    · simp only [if_neg hmk, lookupTable, ih]
      by_cases hmn : m = n
      · subst hmn
        simp [hmk]
      · by_cases hnk : n = k <;> simp [hmn, hnk, hmk]

theorem lookupTable_cleanupCategory_none (dagRuns : List DagRunRow)
    (maxDate : Int) (enableDelete : Bool) (fails : Option String → Bool)
    (store : Store) (cfg : CatConfig) (n : String)
    (h : lookupTable store n = none) :
    lookupTable
      (cleanupCategory dagRuns maxDate enableDelete fails store cfg).1 n
      = none := by
  unfold cleanupCategory
  cases hlk : lookupTable store cfg.name with
  | none => simpa using h
  | some table =>
    have hne : ¬ n = cfg.name := by
      intro he
      rw [he, hlk] at h
      cases h
    cases hB : cfg.doNotDeleteByDagId <;>
      simp [hB, lookupTable_updateTable, hne, h]

theorem lookupTable_runCleanup_none (dagRuns : List DagRunRow)
    (maxDate : Int) (enableDelete : Bool) (fails : Option String → Bool)
    (cfgs : List CatConfig) (store : Store) (n : String)
    (h : lookupTable store n = none) :
    lookupTable
      (runCleanup dagRuns maxDate enableDelete fails store cfgs).1 n
      = none := by
  induction cfgs generalizing store with
  | nil => simpa [runCleanup] using h
  | cons c cs ih =>
    simp only [runCleanup]
    exact ih _ (lookupTable_cleanupCategory_none dagRuns maxDate
      enableDelete fails store c n h)

theorem runCleanup_append (dagRuns : List DagRunRow) (maxDate : Int)
    (enableDelete : Bool) (fails : Option String → Bool) (store : Store)
    (l1 l2 : List CatConfig) :
    runCleanup dagRuns maxDate enableDelete fails store (l1 ++ l2)
      = ((runCleanup dagRuns maxDate enableDelete fails
            (runCleanup dagRuns maxDate enableDelete fails store l1).1
            l2).1,
         (runCleanup dagRuns maxDate enableDelete fails store l1).2
           ++ (runCleanup dagRuns maxDate enableDelete fails
                (runCleanup dagRuns maxDate enableDelete fails store l1).1
                l2).2) := by
  induction l1 generalizing store with
  | nil => simp [runCleanup]
  | cons c cs ih => simp [runCleanup, ih]

/-- Claim C6: a category whose underlying table does not exist is skipped
— the caught error produces the skipped outcome, the store is left
exactly as it was — and every other configured category completes its
cleanup exactly as it would have had the missing category not been
configured at all. -/
theorem C6_missing_table_skipped (dagRuns : List DagRunRow) (maxDate : Int)
    (enableDelete : Bool) (fails : Option String → Bool) (store : Store)
    (pre post : List CatConfig) (c : CatConfig)
    (hmiss : lookupTable store c.name = none) :
    (runCleanup dagRuns maxDate enableDelete fails store
        (pre ++ c :: post)).1
      = (runCleanup dagRuns maxDate enableDelete fails store
          (pre ++ post)).1
    ∧ (runCleanup dagRuns maxDate enableDelete fails store
        (pre ++ c :: post)).2
      = (runCleanup dagRuns maxDate enableDelete fails store pre).2
        ++ Outcome.skippedMissing
          :: (runCleanup dagRuns maxDate enableDelete fails
              (runCleanup dagRuns maxDate enableDelete fails store pre).1
              post).2 := by
  have hmiss1 : lookupTable
      (runCleanup dagRuns maxDate enableDelete fails store pre).1 c.name
      = none :=
    lookupTable_runCleanup_none dagRuns maxDate enableDelete fails pre
      store c.name hmiss
  have hskip : cleanupCategory dagRuns maxDate enableDelete fails
      (runCleanup dagRuns maxDate enableDelete fails store pre).1 c
      = ((runCleanup dagRuns maxDate enableDelete fails store pre).1,
          Outcome.skippedMissing) := by
    unfold cleanupCategory
    rw [hmiss1]
  constructor
  · rw [runCleanup_append, runCleanup_append]
    simp [runCleanup, hskip]
  · rw [runCleanup_append]
    simp [runCleanup, hskip]

theorem C6_missing_table_skipped_witness :
    (runCleanup [] 10 true (fun _ => false) storeTwo
        ([cfgJob] ++ cfgAbsent :: [cfgLog])).1
      = (runCleanup [] 10 true (fun _ => false) storeTwo
          ([cfgJob] ++ [cfgLog])).1
    ∧ (runCleanup [] 10 true (fun _ => false) storeTwo
        ([cfgJob] ++ cfgAbsent :: [cfgLog])).2
      = (runCleanup [] 10 true (fun _ => false) storeTwo [cfgJob]).2
        ++ Outcome.skippedMissing
          :: (runCleanup [] 10 true (fun _ => false)
              (runCleanup [] 10 true (fun _ => false) storeTwo
                [cfgJob]).1 [cfgLog]).2 :=
  C6_missing_table_skipped [] 10 true (fun _ => false) storeTwo [cfgJob]
    [cfgLog] cfgAbsent (by decide)

theorem processPartition_noDelete {α : Type} (dagRuns : List DagRunRow)
    (col : α → Int) (maxDate : Int) (keepLast : Bool)
    (kf : Option (List (DagRunRow → Bool)))
    (kg : Option (DagRunRow → Option String)) (dagIdOf : α → Option String)
    (table : List α) (p : Option String) :
    processPartition dagRuns col maxDate keepLast kf kg dagIdOf false
      table p = table := by
  simp [processPartition]

theorem partitionLoop_id_step {α : Type} (fails : Option String → Bool)
    (step : List α → Option String → List α)
    (h : ∀ t p, step t p = t) (ps : List (Option String)) (table : List α) :
    (partitionLoop fails step ps table).1 = table := by
  induction ps generalizing table with
  | nil => simp [partitionLoop]
  | cons p ps ih =>
    simp only [partitionLoop]
    by_cases hf : fails p <;> simp [hf, h, ih]

theorem updateTable_self (store : Store) (k : String) (t : List Row)
    (h : lookupTable store k = some t) : updateTable store k t = store := by
  induction store with
  | nil => simp [lookupTable] at h
  | cons hd rest ih =>
    obtain ⟨m, u⟩ := hd
    simp only [lookupTable] at h
    simp only [updateTable]
    by_cases hmk : m = k
    · rw [if_pos hmk] at h
      injection h with h
      subst hmk
      rw [if_pos rfl, h]
    · rw [if_neg hmk] at h
      simp [hmk, ih h]

theorem cleanupCategory_noDelete (dagRuns : List DagRunRow) (maxDate : Int)
    (fails : Option String → Bool) (store : Store) (cfg : CatConfig) :
    (cleanupCategory dagRuns maxDate false fails store cfg).1 = store := by
  unfold cleanupCategory
  cases hlk : lookupTable store cfg.name with
  | none => rfl
  | some table =>
    cases hB : cfg.doNotDeleteByDagId with
    | true => simp [hB, updateTable_self store cfg.name table hlk]
    | false =>
      simp only [hB, Bool.false_eq_true, if_false]
      rw [partitionLoop_id_step _ _
        (fun t p => processPartition_noDelete dagRuns Row.age maxDate
          cfg.keepLast cfg.kf cfg.kg Row.dagId t p)]
      simp [updateTable_self store cfg.name table hlk]

/-- Claim C7: with the deletion-enabled flag false (dry-run) the whole
run mutates nothing — whatever the categories, partitions, cutoff or
storage faults, the store after the run equals the store before it. -/
theorem C7_dry_run_no_mutation (dagRuns : List DagRunRow) (maxDate : Int)
    (fails : Option String → Bool) (store : Store)
    (cfgs : List CatConfig) :
    (runCleanup dagRuns maxDate false fails store cfgs).1 = store := by
  induction cfgs generalizing store with
  | nil => simp [runCleanup]
  | cons c cs ih =>
    simp only [runCleanup]
    rw [ih, cleanupCategory_noDelete]

theorem mem_applyKeepLastFilters_filter {α : Type}
    (kf : Option (List (α → Bool))) (q : α → Bool) (rows : List α) (a : α) :
    a ∈ applyKeepLastFilters kf (rows.filter q)
      ↔ a ∈ applyKeepLastFilters kf rows ∧ q a = true := by
  rw [applyKeepLastFilters_eq_filter, applyKeepLastFilters_eq_filter]
  simp only [List.mem_filter]
  tauto

theorem protected_value_survives (rows : List DagRunRow) (maxDate : Int)
    (kf : Option (List (DagRunRow → Bool)))
    (kg : Option (DagRunRow → Option String)) {x : Int}
    (hx : notinOpt x (subqueryValues rows kf kg) = false) :
    notinOpt x (subqueryValues
      (rows.filter (fun r =>
        !((build_query rows DagRunRow.executionDate maxDate true kf
            kg).matches r))) kf kg) = false := by
  have hsurvive : ∀ w : DagRunRow,
      notinOpt w.executionDate (subqueryValues rows kf kg) = false →
      (fun r => !((build_query rows DagRunRow.executionDate maxDate true kf
          kg).matches r)) w = true := by
    intro w hw
    simp only [build_query_true_matches, hw, Bool.false_and, Bool.not_false]
  rw [notinOpt_eq_false_iff] at hx ⊢
  obtain ⟨v, hv, hcase⟩ := hx
  cases kg with
  | none =>
    rw [subqueryValues, List.mem_singleton] at hv
    cases hM : maxOfList ((applyKeepLastFilters kf rows).map
        DagRunRow.executionDate) with
    | none =>
      rw [maxOfList_eq_none, List.map_eq_nil_iff] at hM
      have hF1 : applyKeepLastFilters kf (rows.filter (fun r =>
          !((build_query rows DagRunRow.executionDate maxDate true kf
              none).matches r))) = [] := by
        cases hF1e : applyKeepLastFilters kf (rows.filter (fun r =>
            !((build_query rows DagRunRow.executionDate maxDate true kf
                none).matches r))) with
        | nil => rfl
        | cons a l =>
          have ha : a ∈ applyKeepLastFilters kf (rows.filter (fun r =>
              !((build_query rows DagRunRow.executionDate maxDate true kf
                  none).matches r))) := by
            rw [hF1e]
            exact List.mem_cons_self a l
          have := ((mem_applyKeepLastFilters_filter kf _ rows a).mp ha).1
          rw [hM] at this
          simp at this
      refine ⟨none, ?_, Or.inl rfl⟩
      simp [subqueryValues, hF1, maxOfList]
    | some M =>
      rw [hM] at hv
      subst hv
      have hxM : x = M := by
        rcases hcase with h | h
        · cases h
        · injection h.symm
      obtain ⟨w, hwF, hwe⟩ := List.mem_map.mp (maxOfList_mem hM)
      have hnotinw : notinOpt w.executionDate (subqueryValues rows kf none)
          = false := by
        rw [notinOpt_eq_false_iff]
        refine ⟨some M, ?_, Or.inr (by rw [hwe])⟩
        rw [subqueryValues, List.mem_singleton, hM]
      have hmw := hsurvive w hnotinw
      have hwF1 : w ∈ applyKeepLastFilters kf (rows.filter (fun r =>
          !((build_query rows DagRunRow.executionDate maxDate true kf
              none).matches r))) :=
        (mem_applyKeepLastFilters_filter kf _ rows w).mpr ⟨hwF, hmw⟩
      have hsub1 : ∀ y ∈ (applyKeepLastFilters kf (rows.filter (fun r =>
          !((build_query rows DagRunRow.executionDate maxDate true kf
              none).matches r)))).map DagRunRow.executionDate,
          y ∈ (applyKeepLastFilters kf rows).map DagRunRow.executionDate := by
        intro y hy
        obtain ⟨a, ha, hae⟩ := List.mem_map.mp hy
        exact List.mem_map.mpr
          ⟨a, ((mem_applyKeepLastFilters_filter kf _ rows a).mp ha).1, hae⟩
      have hM1 := maxOfList_sublist_eq hsub1
        (List.mem_map.mpr ⟨w, hwF1, hwe⟩) hM
      refine ⟨some M, ?_, Or.inr (by rw [hxM])⟩
      rw [subqueryValues, List.mem_singleton, hM1]
  | some g =>
    rw [subqueryValues, groupMaxes] at hv
    obtain ⟨k, hk, hkv⟩ := List.mem_map.mp hv
    rw [List.mem_dedup] at hk
    obtain ⟨u, huF, huk⟩ := List.mem_map.mp hk
    have huG : u ∈ (applyKeepLastFilters kf rows).filter
        (fun r => decide (g r = k)) :=
      List.mem_filter.mpr ⟨huF, by simp [huk]⟩
    obtain ⟨M, hM⟩ := maxOfList_isSome_of_mem
      (List.mem_map.mpr ⟨u, huG, rfl⟩)
    have hvM : v = some M := by rw [← hkv, hM]
    have hxM : x = M := by
      rcases hcase with h | h
      · rw [hvM] at h; cases h
      · rw [hvM] at h; injection h.symm
    obtain ⟨w, hwG, hwe⟩ := List.mem_map.mp (maxOfList_mem hM)
    have hwF : w ∈ applyKeepLastFilters kf rows :=
      (List.mem_filter.mp hwG).1
    have hgk : g w = k := by
      have := (List.mem_filter.mp hwG).2
      simpa using this
    have hnotinw : notinOpt w.executionDate
        (subqueryValues rows kf (some g)) = false := by
      rw [notinOpt_eq_false_iff]
      exact ⟨v, hv, Or.inr (by rw [hvM, hwe])⟩
    have hmw := hsurvive w hnotinw
    have hwF1 : w ∈ applyKeepLastFilters kf (rows.filter (fun r =>
        !((build_query rows DagRunRow.executionDate maxDate true kf
            (some g)).matches r))) :=
      (mem_applyKeepLastFilters_filter kf _ rows w).mpr ⟨hwF, hmw⟩
    have hkmem1 : k ∈ ((applyKeepLastFilters kf (rows.filter (fun r =>
        !((build_query rows DagRunRow.executionDate maxDate true kf
            (some g)).matches r)))).map g).dedup :=
      List.mem_dedup.mpr (List.mem_map.mpr ⟨w, hwF1, hgk⟩)
    have hwG1 : w ∈ (applyKeepLastFilters kf (rows.filter (fun r =>
        !((build_query rows DagRunRow.executionDate maxDate true kf
            (some g)).matches r)))).filter (fun r => decide (g r = k)) :=
      List.mem_filter.mpr ⟨hwF1, by simp [hgk]⟩
    have hsubG : ∀ y ∈ ((applyKeepLastFilters kf (rows.filter (fun r =>
        !((build_query rows DagRunRow.executionDate maxDate true kf
            (some g)).matches r)))).filter
          (fun r => decide (g r = k))).map DagRunRow.executionDate,
        y ∈ ((applyKeepLastFilters kf rows).filter
          (fun r => decide (g r = k))).map DagRunRow.executionDate := by
      intro y hy
      obtain ⟨a, ha, hae⟩ := List.mem_map.mp hy
      have ha1 := List.mem_filter.mp ha
      exact List.mem_map.mpr ⟨a, List.mem_filter.mpr
        ⟨((mem_applyKeepLastFilters_filter kf _ rows a).mp ha1.1).1,
          ha1.2⟩, hae⟩
    have hM1 := maxOfList_sublist_eq hsubG
      (List.mem_map.mpr ⟨w, hwG1, hwe⟩) hM
    refine ⟨some M, ?_, Or.inr (by rw [hxM])⟩
    rw [subqueryValues, groupMaxes]
    exact List.mem_map.mpr ⟨k, hkmem1, hM1⟩

/-- Claim C8: deletion is idempotent.  Deleting the rows matched by
`build_query` and then re-evaluating the same query against the remaining
data matches zero rows: without keep-last for any category, table and
DagRun state; with keep-last when the subquery's DagRun table is
untouched by the deletion; and in the configured keep-last case — the
DagRun category itself, age-check attribute `execution_date`, where the
deletion mutates the very table the protected-key subquery reads — the
re-built query still matches no remaining row. -/
theorem C8_idempotent_deletion :
    (∀ (α : Type) (dagRuns : List DagRunRow) (col : α → Int)
        (maxDate : Int) (kf : Option (List (DagRunRow → Bool)))
        (kg : Option (DagRunRow → Option String)) (rows : List α),
      (rows.filter (fun r =>
          !((build_query dagRuns col maxDate false kf kg).matches r))).filter
        (build_query dagRuns col maxDate false kf kg).matches = [])
    ∧ (∀ (α : Type) (dagRuns : List DagRunRow) (col : α → Int)
        (maxDate : Int) (kf : Option (List (DagRunRow → Bool)))
        (kg : Option (DagRunRow → Option String)) (rows : List α),
      (rows.filter (fun r =>
          !((build_query dagRuns col maxDate true kf kg).matches r))).filter
        (build_query dagRuns col maxDate true kf kg).matches = [])
    ∧ (∀ (rows : List DagRunRow) (maxDate : Int)
        (kf : Option (List (DagRunRow → Bool)))
        (kg : Option (DagRunRow → Option String)),
      (rows.filter (fun r =>
          !((build_query rows DagRunRow.executionDate maxDate true kf
              kg).matches r))).filter
        (build_query
          (rows.filter (fun r =>
            !((build_query rows DagRunRow.executionDate maxDate true kf
                kg).matches r)))
          DagRunRow.executionDate maxDate true kf kg).matches = []) := by
  refine ⟨?_, ?_, ?_⟩
  · intro α dagRuns col maxDate kf kg rows
    exact filter_not_self (build_query dagRuns col maxDate false kf
      kg).matches rows
  · intro α dagRuns col maxDate kf kg rows
    exact filter_not_self (build_query dagRuns col maxDate true kf
      kg).matches rows
  · intro rows maxDate kf kg
    rw [List.filter_eq_nil_iff]
    intro r hr
    have hrm := (List.mem_filter.mp hr).2
    rw [Bool.not_eq_true'] at hrm
    rw [build_query_true_matches] at hrm
    intro hcontra
    rw [build_query_true_matches] at hcontra
    cases hn : notinOpt r.executionDate (subqueryValues rows kf kg) with
    | false =>
      have hs := protected_value_survives rows maxDate kf kg hn
      rw [hs] at hcontra
      simp at hcontra
    | true =>
      rw [hn] at hrm
      simp only [Bool.true_and] at hrm
      rw [hrm] at hcontra
      simp at hcontra

theorem find?_first_match {β : Type} (p : β → Bool) (pre post : List β)
    (kv : β) (hpre : ∀ kv' ∈ pre, p kv' = false) (hkv : p kv = true) :
    List.find? p (pre ++ kv :: post) = some kv := by
  induction pre with
  | nil => simp [List.find?_cons_of_pos post hkv]
  | cons a l ih =>
    rw [List.cons_append, List.find?_cons_of_neg]
    · exact ih (fun kv' h => hpre kv' (List.mem_cons_of_mem a h))
    · simp [hpre a (List.mem_cons_self a l)]

/-- Claim C9: the schema-type mapping helper returns the storage tag of
the first key of its fixed ordered table that occurs as a substring of
the input, and "STRING" when no key matches; in particular "datetime64"
maps to "TIMESTAMP", "nullable_int" to "INTEGER" and "weird_enum" to
"STRING". -/
theorem C9_schema_type_first_match :
    (∀ (s : String) (pre post : List (String × String))
        (kv : String × String),
      typeTable = pre ++ kv :: post →
      (∀ kv' ∈ pre, strIncludes kv'.1 s = false) →
      strIncludes kv.1 s = true →
      get_parsed_schema_type s = kv.2)
    ∧ (∀ s : String, (∀ kv ∈ typeTable, strIncludes kv.1 s = false) →
        get_parsed_schema_type s = "STRING")
    ∧ get_parsed_schema_type "datetime64" = "TIMESTAMP"
    ∧ get_parsed_schema_type "nullable_int" = "INTEGER"
    ∧ get_parsed_schema_type "weird_enum" = "STRING" := by
  refine ⟨?_, ?_, by decide, by decide, by decide⟩
  · intro s pre post kv htab hpre hkv
    rw [get_parsed_schema_type, htab,
      find?_first_match (fun kv => strIncludes kv.1 s) pre post kv hpre hkv]
  · intro s hall
    rw [get_parsed_schema_type]
    have hnone : typeTable.find? (fun kv => strIncludes kv.1 s) = none := by
      rw [List.find?_eq_none]
      intro kv hkv
      simp [hall kv hkv]
    rw [hnone]

theorem C9_schema_type_first_match_witness :
    get_parsed_schema_type "datetime64" = "TIMESTAMP"
    ∧ get_parsed_schema_type "weird_enum" = "STRING" :=
  ⟨C9_schema_type_first_match.1 "datetime64" []
      [("timestamp", "TIMESTAMP"), ("bool", "BOOLEAN"), ("int", "INTEGER"),
       ("float", "FLOAT"), ("numeric", "FLOAT"), ("double", "FLOAT"),
       ("decimal", "FLOAT"), ("time", "TIME"), ("date", "DATE")]
      ("datetime", "TIMESTAMP") (by decide) (by decide) (by decide),
   C9_schema_type_first_match.2.1 "weird_enum" (by decide)⟩

/-- Claim C10: the substring matching of the schema-type helper is
case-sensitive — an input in which every table key occurs only in a
different letter case matches no key and falls through to the default
"STRING", e.g. "DATETIME" and "Timestamp" map to "STRING" even though
their lowercasings "datetime" and "timestamp" map to "TIMESTAMP". -/
theorem C10_schema_type_case_sensitive :
    (∀ s : String,
      typeTable.all (fun kv => !(strIncludes kv.1 s)) = true →
      get_parsed_schema_type s = "STRING")
    ∧ typeTable.all (fun kv => !(strIncludes kv.1 "DATETIME")) = true
    ∧ typeTable.all (fun kv => !(strIncludes kv.1 "Timestamp")) = true
    ∧ get_parsed_schema_type "DATETIME" = "STRING"
    ∧ get_parsed_schema_type "Timestamp" = "STRING"
    ∧ get_parsed_schema_type "datetime" = "TIMESTAMP"
    ∧ get_parsed_schema_type "timestamp" = "TIMESTAMP" := by
  refine ⟨?_, by decide, by decide, by decide, by decide, by decide,
    by decide⟩
  intro s hall
  rw [List.all_eq_true] at hall
  rw [get_parsed_schema_type]
  have hnone : typeTable.find? (fun kv => strIncludes kv.1 s) = none := by
    rw [List.find?_eq_none]
    intro kv hkv
    have := hall kv hkv
    simp only [Bool.not_eq_true'] at this
    simp [this]
  rw [hnone]

theorem C10_schema_type_case_sensitive_witness :
    get_parsed_schema_type "DATETIME" = "STRING" :=
  C10_schema_type_case_sensitive.1 "DATETIME" (by decide)
